import Mathlib

/-!
Shallow embedding of the solmint NFT marketplace.

On-chain program (solana-program/src): `state.rs` (account layouts, fee
arithmetic, PDA helpers), `instruction.rs` (borsh instruction codec),
`error.rs` (error enum), `processor.rs` (the instruction state machine).

Backend services (backend/src/services): `indexer.rs` (ledger poller with
its slot cursor) and `websocket_indexer.rs` (event-stream reconciliation
sink).

Addresses (Solana `Pubkey`, 32 raw bytes) are modelled as natural numbers:
a key is identified with the little-endian value of its 32 bytes, so a
well-formed key is `< 2 ^ 256`.  Machine integers are `Nat` with explicit
`2 ^ w` bounds where the source uses checked arithmetic.  Account data is
a raw byte list, and the borsh (de)serialization of the two account
records and of the instruction enum is embedded byte for byte.
-/

abbrev Pubkey := Nat

/-- `u64::MAX` (the bound checked in `Marketplace::calculate_fee`). -/
def U64MAX : Nat := 2 ^ 64 - 1

/-- Little-endian value of a byte list (borsh integer decoding).  Each
entry is reduced mod 256, matching the byte range. -/
def leToNat : List Nat → Nat
  | [] => 0
  | b :: rest => b % 256 + 256 * leToNat rest

/-- Little-endian encoding of `n` into exactly `width` bytes (borsh
integer encoding). -/
def natToLe : Nat → Nat → List Nat
  | 0, _ => []
  | w + 1, n => n % 256 :: natToLe w (n / 256)

theorem natToLe_length (w n : Nat) : (natToLe w n).length = w := by
  induction w generalizing n with
  | zero => rfl
  | succ w ih => simp [natToLe, ih]

theorem leToNat_lt (l : List Nat) : leToNat l < 2 ^ (8 * l.length) := by
  induction l with
  | nil => simp [leToNat]
  | cons b rest ih =>
      have hb : b % 256 < 256 := Nat.mod_lt _ (by norm_num)
      have : 8 * (b :: rest).length = 8 + 8 * rest.length := by
        simp [List.length_cons]; ring
      rw [this, pow_add]
      have : (256 : Nat) ^ 1 = 256 := by norm_num
      simp only [leToNat]
      have h28 : (2 : Nat) ^ 8 = 256 := by norm_num
      rw [h28]
      omega

theorem leToNat_natToLe (w n : Nat) : leToNat (natToLe w n) = n % 2 ^ (8 * w) := by
  induction w generalizing n with
  | zero => simp [natToLe, leToNat, Nat.mod_one]
  | succ w ih =>
      simp only [natToLe, leToNat, ih]
      have hsplit : 2 ^ (8 * (w + 1)) = 256 * 2 ^ (8 * w) := by
        rw [show 8 * (w + 1) = 8 + 8 * w by ring, pow_add]
        norm_num
      rw [hsplit, Nat.mod_mul]
      have h2 : n % 256 % 256 = n % 256 := Nat.mod_mod_of_dvd n dvd_rfl
      omega

/-- Borsh `bool` reader: one byte that must be `0` or `1`; anything else
is a deserialization error. -/
def readBool : List Nat → Option (Bool × List Nat)
  | 0 :: rest => some (false, rest)
  | 1 :: rest => some (true, rest)
  | _ => none

/-- Read `n` little-endian bytes as a natural number (borsh `u16`/`u64`
and the raw 32-byte key array, identified with its LE value). -/
def readLe (n : Nat) (bs : List Nat) : Option (Nat × List Nat) :=
  if bs.length < n then none else some (leToNat (bs.take n), bs.drop n)

theorem readLe_natToLe (w n : Nat) (rest : List Nat) :
    readLe w (natToLe w n ++ rest) = some (n % 2 ^ (8 * w), rest) := by
  have hlen : (natToLe w n).length = w := natToLe_length w n
  simp only [readLe, List.length_append, hlen]
  rw [if_neg (by omega)]
  rw [List.take_left' hlen, List.drop_left' hlen, leToNat_natToLe]

theorem readLe_bound {n : Nat} {bs v : _} {rest : List Nat}
    (h : readLe n bs = some (v, rest)) : v < 2 ^ (8 * n) := by
  simp only [readLe] at h
  split at h
  · exact absurd h (by simp)
  · rename_i hlen
    have : v = leToNat (bs.take n) := by
      injection h with h1; injection h1 with h2 h3; omega
    subst this
    have hl : (bs.take n).length = n := by
      simp [List.length_take]; omega
    have := leToNat_lt (bs.take n)
    rw [hl] at this
    exact this

/-- Read 8 little-endian bytes as a two's-complement `i64` (sign decoding
of borsh `i64`). -/
def readI64 (bs : List Nat) : Option (Int × List Nat) :=
  match readLe 8 bs with
  | none => none
  | some (v, rest) =>
      some (if v < 2 ^ 63 then (v : Int) else (v : Int) - 2 ^ 64, rest)

/-- Byte of a borsh-encoded `bool`. -/
def boolByte (b : Bool) : Nat := if b then 1 else 0

/-- Little-endian two's-complement encoding of an `i64`. -/
def i64ToLe (t : Int) : List Nat := natToLe 8 (t.emod (2 ^ 64)).toNat

/-! ## Errors (`error.rs` and `solana_program::program_error`) -/

/-- `MarketplaceError` from `error.rs`, declared in source order (the
`e as u32` codes are the declaration indices). -/
inductive MarketplaceError
  | InvalidInstruction
  | NotRentExempt
  | ExpectedAmountMismatch
  | AmountOverflow
  | InvalidAccountOwner
  | AccountNotInitialized
  | AccountAlreadyInitialized
  | InvalidMarketplaceAuthority
  | InvalidSeller
  | InvalidBuyer
  | NftNotForSale
  | InsufficientFunds
  | InvalidPrice
  | InvalidFeePercentage
  | MarketplaceFeeCalculationError
  deriving DecidableEq

/-- The `e as u32` discriminant used by `From<MarketplaceError> for
ProgramError` (`ProgramError::Custom(e as u32)`). -/
def MarketplaceError.toCode : MarketplaceError → Nat
  | .InvalidInstruction => 0
  | .NotRentExempt => 1
  | .ExpectedAmountMismatch => 2
  | .AmountOverflow => 3
  | .InvalidAccountOwner => 4
  | .AccountNotInitialized => 5
  | .AccountAlreadyInitialized => 6
  | .InvalidMarketplaceAuthority => 7
  | .InvalidSeller => 8
  | .InvalidBuyer => 9
  | .NftNotForSale => 10
  | .InsufficientFunds => 11
  | .InvalidPrice => 12
  | .InvalidFeePercentage => 13
  | .MarketplaceFeeCalculationError => 14

/-- The `ProgramError` identities this program can surface.  `custom`
carries a `MarketplaceError` code; `borshIoError` is the image of a
`std::io::Error` crossing `?` into a `ProgramResult` (as produced by
`MarketplaceInstruction::unpack`); `accountInUse` and
`systemInsufficientFunds` model the failures of the external system
program reached through `invoke`/`invoke_signed`. -/
inductive ProgramError
  | custom (code : Nat)
  | missingRequiredSignature
  | invalidSeeds
  | invalidAccountData
  | uninitializedAccount
  | notEnoughAccountKeys
  | invalidArgument
  | borshIoError
  | accountInUse
  | systemInsufficientFunds
  deriving DecidableEq

/-- `MarketplaceError::X.into()` for `ProgramResult`. -/
def MarketplaceError.toProgramError (e : MarketplaceError) : ProgramError :=
  .custom e.toCode

/-! ## Account layouts (`state.rs`) -/

/-- `Marketplace` account record (`state.rs`). -/
structure Marketplace where
  is_initialized : Bool
  authority : Pubkey
  fee_percentage : Nat
  fee_recipient : Pubkey
  total_volume : Nat
  total_sales : Nat
  deriving DecidableEq

/-- `Marketplace::LEN = 1 + 32 + 2 + 32 + 8 + 8` (83 bytes). -/
def Marketplace.LEN : Nat := 1 + 32 + 2 + 32 + 8 + 8

/-- `Marketplace::new`: initialized, zero counters. -/
def Marketplace.new (authority : Pubkey) (fee_percentage : Nat)
    (fee_recipient : Pubkey) : Marketplace :=
  ⟨true, authority, fee_percentage, fee_recipient, 0, 0⟩

/-- Borsh serialization of `Marketplace` (field order of the struct). -/
def Marketplace.serialize (m : Marketplace) : List Nat :=
  boolByte m.is_initialized ::
    (natToLe 32 m.authority ++ natToLe 2 m.fee_percentage ++
      natToLe 32 m.fee_recipient ++ natToLe 8 m.total_volume ++
      natToLe 8 m.total_sales)

/-- Borsh deserialization of `Marketplace` (field order of the struct,
each reader consuming its prefix). -/
def Marketplace.deserialize (bs : List Nat) : Option (Marketplace × List Nat) :=
  (readBool bs).bind (fun p1 =>
    (readLe 32 p1.2).bind (fun p2 =>
      (readLe 2 p2.2).bind (fun p3 =>
        (readLe 32 p3.2).bind (fun p4 =>
          (readLe 8 p4.2).bind (fun p5 =>
            (readLe 8 p5.2).map (fun p6 =>
              (⟨p1.1, p2.1, p3.1, p4.1, p5.1, p6.1⟩, p6.2)))))))

/-- `Pack::unpack_unchecked` for `Marketplace`: exact-length check, then
`try_from_slice` (which requires full consumption). -/
def Marketplace.unpack_unchecked (bs : List Nat) : Except ProgramError Marketplace :=
  if bs.length ≠ Marketplace.LEN then .error .invalidAccountData
  else
    match Marketplace.deserialize bs with
    | some (m, []) => .ok m
    | _ => .error .invalidAccountData

/-- `Pack::unpack` for `Marketplace`: `unpack_unchecked` plus the
`is_initialized` gate (`UninitializedAccount` when the flag is clear). -/
def Marketplace.unpack (bs : List Nat) : Except ProgramError Marketplace :=
  match Marketplace.unpack_unchecked bs with
  | .error e => .error e
  | .ok m => if m.is_initialized then .ok m else .error .uninitializedAccount

/-- `Pack::pack` for `Marketplace`: destination must be exactly `LEN`
bytes; `pack_into_slice` then overwrites it with the serialization. -/
def Marketplace.pack (m : Marketplace) (dst : List Nat) :
    Except ProgramError (List Nat) :=
  if dst.length ≠ Marketplace.LEN then .error .invalidAccountData
  else .ok (Marketplace.serialize m)

/-- `Listing` account record (`state.rs`). -/
structure Listing where
  is_initialized : Bool
  seller : Pubkey
  nft_mint : Pubkey
  price : Nat
  created_at : Int
  marketplace : Pubkey
  deriving DecidableEq

/-- `Listing::LEN = 1 + 32 + 32 + 8 + 8 + 32` (113 bytes). -/
def Listing.LEN : Nat := 1 + 32 + 32 + 8 + 8 + 32

/-- `Listing::new`. -/
def Listing.new (seller nft_mint : Pubkey) (price : Nat) (created_at : Int)
    (marketplace : Pubkey) : Listing :=
  ⟨true, seller, nft_mint, price, created_at, marketplace⟩

/-- Borsh serialization of `Listing`. -/
def Listing.serialize (l : Listing) : List Nat :=
  boolByte l.is_initialized ::
    (natToLe 32 l.seller ++ natToLe 32 l.nft_mint ++ natToLe 8 l.price ++
      i64ToLe l.created_at ++ natToLe 32 l.marketplace)

/-- Borsh deserialization of `Listing` (field order of the struct, each
reader consuming its prefix). -/
def Listing.deserialize (bs : List Nat) : Option (Listing × List Nat) :=
  (readBool bs).bind (fun p1 =>
    (readLe 32 p1.2).bind (fun p2 =>
      (readLe 32 p2.2).bind (fun p3 =>
        (readLe 8 p3.2).bind (fun p4 =>
          (readI64 p4.2).bind (fun p5 =>
            (readLe 32 p5.2).map (fun p6 =>
              (⟨p1.1, p2.1, p3.1, p4.1, p5.1, p6.1⟩, p6.2)))))))

/-- `Pack::unpack_unchecked` for `Listing`. -/
def Listing.unpack_unchecked (bs : List Nat) : Except ProgramError Listing :=
  if bs.length ≠ Listing.LEN then .error .invalidAccountData
  else
    match Listing.deserialize bs with
    | some (l, []) => .ok l
    | _ => .error .invalidAccountData

/-- `Pack::unpack` for `Listing`. -/
def Listing.unpack (bs : List Nat) : Except ProgramError Listing :=
  match Listing.unpack_unchecked bs with
  | .error e => .error e
  | .ok l => if l.is_initialized then .ok l else .error .uninitializedAccount

/-- `Pack::pack` for `Listing`. -/
def Listing.pack (l : Listing) (dst : List Nat) :
    Except ProgramError (List Nat) :=
  if dst.length ≠ Listing.LEN then .error .invalidAccountData
  else .ok (Listing.serialize l)

/-! ## Fee arithmetic (`state.rs`) -/

/-- `u128` checked multiplication. -/
def checkedMulU128 (a b : Nat) : Option Nat :=
  if a * b < 2 ^ 128 then some (a * b) else none

/-- `u128` checked division (`None` only on division by zero). -/
def checkedDivU128 (a b : Nat) : Option Nat :=
  if b = 0 then none else some (a / b)

/-- `u64` checked addition. -/
def checkedAddU64 (a b : Nat) : Option Nat :=
  if a + b < 2 ^ 64 then some (a + b) else none

/-- `u64` checked subtraction. -/
def checkedSubU64 (a b : Nat) : Option Nat :=
  if a < b then none else some (a - b)

/-- `Marketplace::calculate_fee`: widen to `u128`, checked multiply by the
basis-point fee, checked divide by 10000, reject results above
`u64::MAX`. -/
def Marketplace.calculate_fee (m : Marketplace) (price : Nat) :
    Except MarketplaceError Nat :=
  match checkedMulU128 price m.fee_percentage with
  | none => .error .AmountOverflow
  | some x =>
    match checkedDivU128 x 10000 with
    | none => .error .MarketplaceFeeCalculationError
    | some fee =>
      if fee > U64MAX then .error .AmountOverflow else .ok fee

/-- `Marketplace::calculate_seller_proceeds`: price minus fee, checked. -/
def Marketplace.calculate_seller_proceeds (m : Marketplace) (price : Nat) :
    Except MarketplaceError Nat :=
  match m.calculate_fee price with
  | .error e => .error e
  | .ok fee =>
    match checkedSubU64 price fee with
    | none => .error .AmountOverflow
    | some p => .ok p

/-! ## Instruction codec (`instruction.rs`) -/

/-- The instruction enum (`instruction.rs`), borsh tag = declaration
index. -/
inductive MarketplaceInstruction
  | InitializeMarketplace (fee_percentage : Nat)
  | ListNft (price : Nat)
  | BuyNft
  | CancelListing
  | UpdateMarketplaceFee (new_fee_percentage : Nat)
  deriving DecidableEq

/-- Borsh enum deserialization: one tag byte, then the variant's
fixed-width fields. -/
def MarketplaceInstruction.readVariant :
    List Nat → Option (MarketplaceInstruction × List Nat)
  | 0 :: rest => (readLe 2 rest).map (fun p => (.InitializeMarketplace p.1, p.2))
  | 1 :: rest => (readLe 8 rest).map (fun p => (.ListNft p.1, p.2))
  | 2 :: rest => some (.BuyNft, rest)
  | 3 :: rest => some (.CancelListing, rest)
  | 4 :: rest => (readLe 2 rest).map (fun p => (.UpdateMarketplaceFee p.1, p.2))
  | _ => none

/-- `MarketplaceInstruction::unpack`: borsh `try_from_slice` (decode plus
full consumption); any failure is a `std::io::Error` of kind
`InvalidData`, which crosses `?` into a `ProgramResult` as
`ProgramError::BorshIoError` — it is never
`MarketplaceError::InvalidInstruction`. -/
def MarketplaceInstruction.unpack (input : List Nat) :
    Except ProgramError MarketplaceInstruction :=
  match MarketplaceInstruction.readVariant input with
  | some (i, []) => .ok i
  | _ => .error .borshIoError

/-- `MarketplaceInstruction::pack` (borsh serialization). -/
def MarketplaceInstruction.pack : MarketplaceInstruction → List Nat
  | .InitializeMarketplace fee => 0 :: natToLe 2 fee
  | .ListNft price => 1 :: natToLe 8 price
  | .BuyNft => [2]
  | .CancelListing => [3]
  | .UpdateMarketplaceFee fee => 4 :: natToLe 2 fee

/-! ## Runtime model

Accounts live in a ledger keyed by address: `lamports`, `owner` and raw
`data` per key.  This keyed model mirrors the fact that every
`AccountInfo` for the same key aliases one account.  The per-instruction
account list carries the caller-supplied keys and signer flags
(`AccountMeta`).  External runtime inputs that the processor reads —
the system program id, the rent sysvar, `Rent::minimum_balance`,
`Clock::get().unix_timestamp`, and `Pubkey::find_program_address` for the
two seed shapes of `state.rs` — are environment parameters. -/

structure AccountMeta where
  key : Pubkey
  is_signer : Bool
  deriving DecidableEq

structure Ledger where
  lamports : Pubkey → Nat
  owner : Pubkey → Pubkey
  data : Pubkey → List Nat

/-- Overwrite one account's lamports. -/
def Ledger.setLam (st : Ledger) (k : Pubkey) (v : Nat) : Ledger :=
  { st with lamports := fun x => if x = k then v else st.lamports x }

/-- Overwrite one account's data. -/
def Ledger.setData (st : Ledger) (k : Pubkey) (v : List Nat) : Ledger :=
  { st with data := fun x => if x = k then v else st.data x }

/-- Overwrite one account's owner. -/
def Ledger.setOwner (st : Ledger) (k : Pubkey) (v : Pubkey) : Ledger :=
  { st with owner := fun x => if x = k then v else st.owner x }

structure Env where
  system_program : Pubkey
  rent_sysvar : Pubkey
  minimum_balance : Nat → Nat
  unix_timestamp : Int
  marketplace_pda : Pubkey → Pubkey
  listing_pda : Pubkey → Pubkey → Pubkey

/-- Model of the external system program's `create_account`, reached via
`invoke_signed`: the target must be fresh (zero lamports, empty data,
system-owned) and the funder must be able to pay; the target then gets
the lamports, `space` zero bytes of data, and the new owner. -/
def createAccount (env : Env) (funder target : Pubkey) (lam space : Nat)
    (newOwner : Pubkey) (st : Ledger) : Except ProgramError Ledger :=
  if st.lamports target ≠ 0 ∨ st.data target ≠ [] ∨
      st.owner target ≠ env.system_program then
    .error .accountInUse
  else if st.lamports funder < lam then
    .error .systemInsufficientFunds
  else
    let st1 := st.setLam funder (st.lamports funder - lam)
    let st2 := st1.setLam target (st1.lamports target + lam)
    .ok ((st2.setData target (List.replicate space 0)).setOwner target newOwner)

/-- Model of the external system program's `transfer`, reached via
`invoke`: debit the source, credit the destination. -/
def systemTransfer (source dest : Pubkey) (amount : Nat) (st : Ledger) :
    Except ProgramError Ledger :=
  if st.lamports source < amount then .error .systemInsufficientFunds
  else
    let st1 := st.setLam source (st.lamports source - amount)
    .ok (st1.setLam dest (st1.lamports dest + amount))

/-! ## Instruction processor (`processor.rs`) -/

/-- `Processor::process_initialize_marketplace`.  Checks in source order:
fee cap, authority signature, system ownership of the target, rent
sysvar, derived address (`InvalidSeeds` on mismatch); then creates the
account and writes `Marketplace::new(authority, fee, authority)`. -/
def process_initialize_marketplace (env : Env) (program_id : Pubkey)
    (accounts : List AccountMeta) (fee_percentage : Nat) (st : Ledger) :
    Except ProgramError Ledger :=
  match accounts with
  | authority_info :: marketplace_info :: _system_program_info :: rent_info :: _ =>
    if fee_percentage > 1000 then
      .error (MarketplaceError.toProgramError .InvalidFeePercentage)
    else if !authority_info.is_signer then .error .missingRequiredSignature
    else if st.owner marketplace_info.key ≠ env.system_program then
      .error (MarketplaceError.toProgramError .InvalidAccountOwner)
    else if rent_info.key ≠ env.rent_sysvar then .error .invalidArgument
    else
      let space := Marketplace.LEN
      let required_lamports := env.minimum_balance space
      let marketplace_pda := env.marketplace_pda authority_info.key
      if marketplace_pda ≠ marketplace_info.key then .error .invalidSeeds
      else
        match createAccount env authority_info.key marketplace_info.key
            required_lamports space program_id st with
        | .error e => .error e
        | .ok st1 =>
          let marketplace :=
            Marketplace.new authority_info.key fee_percentage authority_info.key
          match Marketplace.pack marketplace (st1.data marketplace_info.key) with
          | .error e => .error e
          | .ok bytes => .ok (st1.setData marketplace_info.key bytes)
  | _ => .error .notEnoughAccountKeys

/-- `Processor::process_list_nft`.  Checks in source order: nonzero
price, seller signature, marketplace unpack and init flag, listing still
system-owned, rent sysvar, derived listing address (`InvalidSeeds` on
mismatch); then creates the listing account and writes `Listing::new`. -/
def process_list_nft (env : Env) (program_id : Pubkey)
    (accounts : List AccountMeta) (price : Nat) (st : Ledger) :
    Except ProgramError Ledger :=
  match accounts with
  | seller_info :: listing_info :: nft_mint_info :: _seller_token_info ::
      marketplace_info :: _system_program_info :: rent_info :: _ =>
    if price = 0 then .error (MarketplaceError.toProgramError .InvalidPrice)
    else if !seller_info.is_signer then .error .missingRequiredSignature
    else
      match Marketplace.unpack (st.data marketplace_info.key) with
      | .error e => .error e
      | .ok marketplace =>
        if !marketplace.is_initialized then
          .error (MarketplaceError.toProgramError .AccountNotInitialized)
        else if st.owner listing_info.key ≠ env.system_program then
          .error (MarketplaceError.toProgramError .AccountAlreadyInitialized)
        else if rent_info.key ≠ env.rent_sysvar then .error .invalidArgument
        else
          let space := Listing.LEN
          let required_lamports := env.minimum_balance space
          let listing_pda := env.listing_pda nft_mint_info.key seller_info.key
          if listing_pda ≠ listing_info.key then .error .invalidSeeds
          else
            match createAccount env seller_info.key listing_info.key
                required_lamports space program_id st with
            | .error e => .error e
            | .ok st1 =>
              let listing := Listing.new seller_info.key nft_mint_info.key
                price env.unix_timestamp marketplace_info.key
              match Listing.pack listing (st1.data listing_info.key) with
              | .error e => .error e
              | .ok bytes => .ok (st1.setData listing_info.key bytes)
  | _ => .error .notEnoughAccountKeys

/-- `Processor::process_buy_nft`.  Note: `program_id` is unused in the
source (`_program_id`) and no derived-address check is performed; the fee
goes to the caller-supplied `marketplace_fee_info` account, which is
never compared with `marketplace.fee_recipient`. -/
def process_buy_nft (_env : Env) (_program_id : Pubkey)
    (accounts : List AccountMeta) (st : Ledger) :
    Except ProgramError Ledger :=
  match accounts with
  | buyer_info :: listing_info :: _buyer_token_info :: _seller_token_info ::
      seller_info :: marketplace_fee_info :: nft_mint_info ::
      marketplace_info :: _token_program_info :: _system_program_info :: _ =>
    if !buyer_info.is_signer then .error .missingRequiredSignature
    else
      match Listing.unpack (st.data listing_info.key) with
      | .error e => .error e
      | .ok listing =>
        if !listing.is_initialized then
          .error (MarketplaceError.toProgramError .AccountNotInitialized)
        else
          match Marketplace.unpack (st.data marketplace_info.key) with
          | .error e => .error e
          | .ok marketplace =>
            if !marketplace.is_initialized then
              .error (MarketplaceError.toProgramError .AccountNotInitialized)
            else if listing.nft_mint ≠ nft_mint_info.key then
              .error (MarketplaceError.toProgramError .ExpectedAmountMismatch)
            else if listing.seller ≠ seller_info.key then
              .error (MarketplaceError.toProgramError .InvalidSeller)
            else
              match marketplace.calculate_fee listing.price with
              | .error e => .error e.toProgramError
              | .ok marketplace_fee =>
                match marketplace.calculate_seller_proceeds listing.price with
                | .error e => .error e.toProgramError
                | .ok seller_proceeds =>
                  if st.lamports buyer_info.key < listing.price then
                    .error (MarketplaceError.toProgramError .InsufficientFunds)
                  else
                    match systemTransfer buyer_info.key seller_info.key
                        seller_proceeds st with
                    | .error e => .error e
                    | .ok st1 =>
                      match (if marketplace_fee > 0 then
                          systemTransfer buyer_info.key marketplace_fee_info.key
                            marketplace_fee st1
                        else .ok st1) with
                      | .error e => .error e
                      | .ok st2 =>
                        match checkedAddU64 marketplace.total_volume listing.price with
                        | none => .error (MarketplaceError.toProgramError .AmountOverflow)
                        | some new_volume =>
                          match checkedAddU64 marketplace.total_sales 1 with
                          | none => .error (MarketplaceError.toProgramError .AmountOverflow)
                          | some new_sales =>
                            let marketplace2 := { marketplace with
                              total_volume := new_volume, total_sales := new_sales }
                            match Marketplace.pack marketplace2
                                (st2.data marketplace_info.key) with
                            | .error e => .error e
                            | .ok bytes =>
                              let st3 := st2.setData marketplace_info.key bytes
                              let listing_lamports := st3.lamports listing_info.key
                              let st4 := st3.setLam listing_info.key 0
                              match checkedAddU64 (st4.lamports seller_info.key)
                                  listing_lamports with
                              | none => .error (MarketplaceError.toProgramError .AmountOverflow)
                              | some v => .ok (st4.setLam seller_info.key v)
  | _ => .error .notEnoughAccountKeys

/-- `Processor::process_cancel_listing`.  `program_id` is unused in the
source; no derived-address check.  Checks: seller signature, listing
unpack and init flag, recorded seller (`InvalidSeller`), recorded mint
(`ExpectedAmountMismatch`); then closes the listing, crediting its
balance to the seller. -/
def process_cancel_listing (_env : Env) (_program_id : Pubkey)
    (accounts : List AccountMeta) (st : Ledger) :
    Except ProgramError Ledger :=
  match accounts with
  | seller_info :: listing_info :: nft_mint_info :: _ =>
    if !seller_info.is_signer then .error .missingRequiredSignature
    else
      match Listing.unpack (st.data listing_info.key) with
      | .error e => .error e
      | .ok listing =>
        if !listing.is_initialized then
          .error (MarketplaceError.toProgramError .AccountNotInitialized)
        else if listing.seller ≠ seller_info.key then
          .error (MarketplaceError.toProgramError .InvalidSeller)
        else if listing.nft_mint ≠ nft_mint_info.key then
          .error (MarketplaceError.toProgramError .ExpectedAmountMismatch)
        else
          let listing_lamports := st.lamports listing_info.key
          let st1 := st.setLam listing_info.key 0
          match checkedAddU64 (st1.lamports seller_info.key) listing_lamports with
          | none => .error (MarketplaceError.toProgramError .AmountOverflow)
          | some v => .ok (st1.setLam seller_info.key v)
  | _ => .error .notEnoughAccountKeys

/-- `Processor::process_update_marketplace_fee`.  `program_id` is unused
in the source; no derived-address check.  Checks: fee cap, authority
signature, marketplace unpack and init flag, recorded authority; then
overwrites only `fee_percentage`. -/
def process_update_marketplace_fee (_env : Env) (_program_id : Pubkey)
    (accounts : List AccountMeta) (new_fee_percentage : Nat) (st : Ledger) :
    Except ProgramError Ledger :=
  match accounts with
  | authority_info :: marketplace_info :: _ =>
    if new_fee_percentage > 1000 then
      .error (MarketplaceError.toProgramError .InvalidFeePercentage)
    else if !authority_info.is_signer then .error .missingRequiredSignature
    else
      match Marketplace.unpack (st.data marketplace_info.key) with
      | .error e => .error e
      | .ok marketplace =>
        if !marketplace.is_initialized then
          .error (MarketplaceError.toProgramError .AccountNotInitialized)
        else if marketplace.authority ≠ authority_info.key then
          .error (MarketplaceError.toProgramError .InvalidMarketplaceAuthority)
        else
          let marketplace2 := { marketplace with fee_percentage := new_fee_percentage }
          match Marketplace.pack marketplace2 (st.data marketplace_info.key) with
          | .error e => .error e
          | .ok bytes => .ok (st.setData marketplace_info.key bytes)
  | _ => .error .notEnoughAccountKeys

/-- `Processor::process`: decode the instruction, dispatch. -/
def Processor.process (env : Env) (program_id : Pubkey)
    (accounts : List AccountMeta) (instruction_data : List Nat) (st : Ledger) :
    Except ProgramError Ledger :=
  match MarketplaceInstruction.unpack instruction_data with
  | .error e => .error e
  | .ok i =>
    match i with
    | .InitializeMarketplace fee_percentage =>
        process_initialize_marketplace env program_id accounts fee_percentage st
    | .ListNft price => process_list_nft env program_id accounts price st
    | .BuyNft => process_buy_nft env program_id accounts st
    | .CancelListing => process_cancel_listing env program_id accounts st
    | .UpdateMarketplaceFee new_fee =>
        process_update_marketplace_fee env program_id accounts new_fee st

/-- Effective post-state of one instruction under the ledger's
transactional semantics: a failed instruction leaves every account
unchanged (spec section 5: atomicity is provided by the host). -/
def Processor.step (env : Env) (program_id : Pubkey)
    (accounts : List AccountMeta) (instruction_data : List Nat) (st : Ledger) :
    Ledger :=
  match Processor.process env program_id accounts instruction_data st with
  | .ok st1 => st1
  | .error _ => st

/-! ## Ledger poller (`services/indexer.rs`)

One sweep of `SolanaIndexer::process_transactions`.  The RPC client and
the database are abstracted into an environment: the observed head slot
(`get_slot`), whether `get_blocks_with_commitment` fails for a range,
which block slots a range returns, and whether processing one block
fails.  The persisted state is the cursor row (`last_processed_slot`)
plus the list of block slots that were actually processed (the sweep's
only observable per-block effect; `process_marketplace_instruction`
never writes a row because its `nft_mint` placeholder check is always
false).  Failures of one range or one block are logged and skipped
(`continue`); the cursor update at the end of the sweep is the upsert of
`update_last_processed_slot`. -/

structure IndexerEnv where
  current_slot : Nat
  get_blocks_fails : Nat → Nat → Bool
  blocks : Nat → Nat → List Nat
  block_fails : Nat → Bool

structure IndexerState where
  last_processed_slot : Nat
  processed_blocks : List Nat
  deriving DecidableEq

/-- The batch start slots of `((last+1)..=current).step_by(100)`. -/
def batchStarts (last current : Nat) : List Nat :=
  (List.range ((current - last + 99) / 100)).map (fun i => last + 1 + 100 * i)

/-- `SolanaIndexer::process_block`: fetch one block and hand each of its
transactions to the sink; a per-transaction failure is skipped.  At this
model's granularity the block either processes or its fetch fails. -/
def process_block (env : IndexerEnv) (slot : Nat) (acc : List Nat) :
    Except Unit (List Nat) :=
  if env.block_fails slot then .error () else .ok (acc ++ [slot])

/-- `SolanaIndexer::process_slot_range`: fetch the confirmed blocks of
the range (propagating a fetch error), then process each block, skipping
(`continue`) the ones that fail. -/
def process_slot_range (env : IndexerEnv) (start_slot end_slot : Nat)
    (acc : List Nat) : Except Unit (List Nat) :=
  if env.get_blocks_fails start_slot end_slot then .error ()
  else
    .ok ((env.blocks start_slot end_slot).foldl
      (fun a slot =>
        match process_block env slot a with
        | .ok a2 => a2
        | .error _ => a) acc)

/-- `SolanaIndexer::process_transactions` (one sweep): read the cursor
and the head; no-op if `head ≤ cursor`; otherwise sweep the range in
batches of 100, skipping (`continue`) any batch whose processing errors,
and finally upsert the cursor to the observed head. -/
def process_transactions (env : IndexerEnv) (st : IndexerState) :
    IndexerState :=
  let last_slot := st.last_processed_slot
  let current_slot := env.current_slot
  if current_slot ≤ last_slot then st
  else
    let processed := (batchStarts last_slot current_slot).foldl
      (fun acc start_slot =>
        let end_slot := min (start_slot + 100 - 1) current_slot
        match process_slot_range env start_slot end_slot acc with
        | .ok acc2 => acc2
        | .error _ => acc) st.processed_blocks
    { last_processed_slot := current_slot, processed_blocks := processed }

/-! ## Event-stream reconciliation sink (`services/websocket_indexer.rs`)

`WebsocketIndexer::handle_nft_minted_event` over a database modelled as
the list of `nfts` rows in insertion order.  `Nft::find_by_mint` is the
`SELECT * FROM nfts WHERE mint_address = $1` lookup; `Nft::create` is
the plain `INSERT ... RETURNING *` append.  `fetch_metadata` never
fails (every error arm of the source degrades to `Ok((None, None,
None))`), so it is a pure environment function. -/

structure NftAttribute where
  trait_type : String
  value : String
  display_type : Option String
  deriving DecidableEq

structure NftMintedEvent where
  mint : String
  name : String
  symbol : String
  uri : String
  creator : String
  deriving DecidableEq

/-- The `nfts` row fields that `handle_nft_minted_event` populates. -/
structure NftRow where
  mint_address : String
  collection_id : Option Nat
  name : String
  description : Option String
  image_url : Option String
  animation_url : Option String
  external_url : Option String
  attributes : Option (List NftAttribute)
  creator_address : String
  current_owner : String
  is_compressed : Bool
  deriving DecidableEq

structure WsEnv where
  fetch_metadata :
    String → Option String × Option String × Option (List NftAttribute)

/-- `Nft::find_by_mint`. -/
def Nft.find_by_mint (db : List NftRow) (mint_address : String) :
    Option NftRow :=
  db.find? (fun r => r.mint_address = mint_address)

/-- `WebsocketIndexer::handle_nft_minted_event`: if a row keyed by the
event's mint already exists the event is a duplicate and is dropped;
otherwise fetch metadata and insert the new row. -/
def handle_nft_minted_event (env : WsEnv) (event : NftMintedEvent)
    (_signature : String) (db : List NftRow) : Except Unit (List NftRow) :=
  match Nft.find_by_mint db event.mint with
  | some _ => .ok db
  | none =>
    let md := env.fetch_metadata event.uri
    let row : NftRow :=
      { mint_address := event.mint
        collection_id := none
        name := event.name
        description := md.2.1
        image_url := md.1
        animation_url := none
        external_url := none
        attributes := md.2.2
        creator_address := event.creator
        current_owner := event.creator
        is_compressed := false }
    .ok (db ++ [row])

/-! ## Basic lemmas about the embedding -/

@[simp] theorem Ledger.lamports_setLam (st : Ledger) (k : Pubkey) (v : Nat)
    (x : Pubkey) :
    (st.setLam k v).lamports x = if x = k then v else st.lamports x := rfl

@[simp] theorem Ledger.data_setLam (st : Ledger) (k : Pubkey) (v : Nat)
    (x : Pubkey) : (st.setLam k v).data x = st.data x := rfl

@[simp] theorem Ledger.owner_setLam (st : Ledger) (k : Pubkey) (v : Nat)
    (x : Pubkey) : (st.setLam k v).owner x = st.owner x := rfl

@[simp] theorem Ledger.data_setData (st : Ledger) (k : Pubkey) (v : List Nat)
    (x : Pubkey) :
    (st.setData k v).data x = if x = k then v else st.data x := rfl

@[simp] theorem Ledger.lamports_setData (st : Ledger) (k : Pubkey)
    (v : List Nat) (x : Pubkey) : (st.setData k v).lamports x = st.lamports x := rfl

@[simp] theorem Ledger.owner_setData (st : Ledger) (k : Pubkey) (v : List Nat)
    (x : Pubkey) : (st.setData k v).owner x = st.owner x := rfl

@[simp] theorem Ledger.owner_setOwner (st : Ledger) (k : Pubkey) (v : Pubkey)
    (x : Pubkey) :
    (st.setOwner k v).owner x = if x = k then v else st.owner x := rfl

@[simp] theorem Ledger.data_setOwner (st : Ledger) (k : Pubkey) (v : Pubkey)
    (x : Pubkey) : (st.setOwner k v).data x = st.data x := rfl

@[simp] theorem Ledger.lamports_setOwner (st : Ledger) (k : Pubkey) (v : Pubkey)
    (x : Pubkey) : (st.setOwner k v).lamports x = st.lamports x := rfl

theorem systemTransfer_ok_data {source dest : Pubkey} {amount : Nat}
    {st st1 : Ledger} (h : systemTransfer source dest amount st = .ok st1) :
    ∀ x, st1.data x = st.data x := by
  simp only [systemTransfer] at h
  split at h
  · exact absurd h (by simp)
  · injection h with h1
    subst h1
    intro x
    simp

theorem systemTransfer_ok_owner {source dest : Pubkey} {amount : Nat}
    {st st1 : Ledger} (h : systemTransfer source dest amount st = .ok st1) :
    ∀ x, st1.owner x = st.owner x := by
  simp only [systemTransfer] at h
  split at h
  · exact absurd h (by simp)
  · injection h with h1
    subst h1
    intro x
    simp

theorem systemTransfer_ok_lamports_other {source dest : Pubkey} {amount : Nat}
    {st st1 : Ledger} (h : systemTransfer source dest amount st = .ok st1) :
    ∀ x, x ≠ source → x ≠ dest → st1.lamports x = st.lamports x := by
  simp only [systemTransfer] at h
  split at h
  · exact absurd h (by simp)
  · injection h with h1
    subst h1
    intro x hxs hxd
    simp [hxs, hxd]

theorem systemTransfer_ok_lamports_dest {source dest : Pubkey} {amount : Nat}
    {st st1 : Ledger} (h : systemTransfer source dest amount st = .ok st1)
    (hne : dest ≠ source) : st1.lamports dest = st.lamports dest + amount := by
  simp only [systemTransfer] at h
  split at h
  · exact absurd h (by simp)
  · injection h with h1
    subst h1
    simp [hne]

/-! Serialization round trips. -/

/-- Field bounds of a byte-representable `Marketplace` record. -/
def Marketplace.Valid (m : Marketplace) : Prop :=
  m.authority < 2 ^ 256 ∧ m.fee_percentage < 2 ^ 16 ∧
    m.fee_recipient < 2 ^ 256 ∧ m.total_volume < 2 ^ 64 ∧
    m.total_sales < 2 ^ 64

theorem marketplace_serialize_length (m : Marketplace) :
    (Marketplace.serialize m).length = Marketplace.LEN := by
  simp [Marketplace.serialize, Marketplace.LEN, natToLe_length]

theorem readBool_boolByte (b : Bool) (rest : List Nat) :
    readBool (boolByte b :: rest) = some (b, rest) := by
  cases b <;> simp [boolByte, readBool]

theorem readLe_natToLe_nil (w n : Nat) :
    readLe w (natToLe w n) = some (n % 2 ^ (8 * w), []) := by
  have := readLe_natToLe w n []
  simpa using this

theorem Marketplace.deserialize_serialize (m : Marketplace) (hv : m.Valid) :
    Marketplace.deserialize (Marketplace.serialize m) = some (m, []) := by
  obtain ⟨i, a, fp, fr, tv, ts⟩ := m
  obtain ⟨h1, h2, h3, h4, h5⟩ := hv
  simp only [Marketplace.serialize, Marketplace.deserialize, readBool_boolByte,
    List.append_assoc, Option.some_bind, readLe_natToLe, readLe_natToLe_nil,
    Option.map_some']
  rw [Nat.mod_eq_of_lt (show a < 2 ^ (8 * 32) by simpa using h1),
    Nat.mod_eq_of_lt (show fp < 2 ^ (8 * 2) by simpa using h2),
    Nat.mod_eq_of_lt (show fr < 2 ^ (8 * 32) by simpa using h3),
    Nat.mod_eq_of_lt (show tv < 2 ^ (8 * 8) by simpa using h4),
    Nat.mod_eq_of_lt (show ts < 2 ^ (8 * 8) by simpa using h5)]

theorem Marketplace.unpack_serialize (m : Marketplace) (hv : m.Valid)
    (hi : m.is_initialized = true) :
    Marketplace.unpack (Marketplace.serialize m) = .ok m := by
  simp [Marketplace.unpack, Marketplace.unpack_unchecked,
    marketplace_serialize_length, Marketplace.deserialize_serialize m hv, hi]

theorem marketplace_unpack_unchecked_ok {bs : List Nat} {m : Marketplace}
    (h : Marketplace.unpack_unchecked bs = .ok m) :
    bs.length = Marketplace.LEN ∧ Marketplace.deserialize bs = some (m, []) := by
  simp only [Marketplace.unpack_unchecked] at h
  split at h
  · exact absurd h (by simp)
  · split at h
    · rename_i m2 heq
      injection h with h1
      subst h1
      constructor
      · omega
      · exact heq
    · exact absurd h (by simp)

theorem marketplace_unpack_ok {bs : List Nat} {m : Marketplace}
    (h : Marketplace.unpack bs = .ok m) :
    bs.length = Marketplace.LEN ∧ Marketplace.deserialize bs = some (m, []) ∧
      m.is_initialized = true := by
  simp only [Marketplace.unpack] at h
  split at h
  · exact absurd h (by simp)
  · rename_i m2 heq
    split at h
    · rename_i hi
      injection h with h1
      subst h1
      have := marketplace_unpack_unchecked_ok heq
      exact ⟨this.1, this.2, hi⟩
    · exact absurd h (by simp)

theorem Marketplace.deserialize_valid {bs rest : List Nat} {m : Marketplace}
    (h : Marketplace.deserialize bs = some (m, rest)) : m.Valid := by
  simp only [Marketplace.deserialize, Option.bind_eq_some, Option.map_eq_some'] at h
  obtain ⟨p1, hb, p2, ha, p3, hf, p4, hr, p5, hvv, p6, hs, hm⟩ := h
  have hm2 : m = ⟨p1.1, p2.1, p3.1, p4.1, p5.1, p6.1⟩ := by
    have := congrArg Prod.fst hm
    simpa using this.symm
  subst hm2
  refine ⟨?_, ?_, ?_, ?_, ?_⟩
  · simpa using readLe_bound ha
  · simpa using readLe_bound hf
  · simpa using readLe_bound hr
  · simpa using readLe_bound hvv
  · simpa using readLe_bound hs

theorem marketplace_unpack_ok_valid {bs : List Nat} {m : Marketplace}
    (h : Marketplace.unpack bs = .ok m) : m.Valid :=
  Marketplace.deserialize_valid (marketplace_unpack_ok h).2.1

theorem listing_serialize_length (l : Listing) :
    (Listing.serialize l).length = Listing.LEN := by
  simp [Listing.serialize, Listing.LEN, natToLe_length, i64ToLe]

theorem listing_unpack_unchecked_ok {bs : List Nat} {l : Listing}
    (h : Listing.unpack_unchecked bs = .ok l) :
    bs.length = Listing.LEN ∧ Listing.deserialize bs = some (l, []) := by
  simp only [Listing.unpack_unchecked] at h
  split at h
  · exact absurd h (by simp)
  · split at h
    · rename_i l2 heq
      injection h with h1
      subst h1
      constructor
      · omega
      · exact heq
    · exact absurd h (by simp)

theorem listing_unpack_ok {bs : List Nat} {l : Listing}
    (h : Listing.unpack bs = .ok l) :
    bs.length = Listing.LEN ∧ Listing.deserialize bs = some (l, []) ∧
      l.is_initialized = true := by
  simp only [Listing.unpack] at h
  split at h
  · exact absurd h (by simp)
  · rename_i l2 heq
    split at h
    · rename_i hi
      injection h with h1
      subst h1
      have := listing_unpack_unchecked_ok heq
      exact ⟨this.1, this.2, hi⟩
    · exact absurd h (by simp)

theorem listing_unpack_ok_length {bs : List Nat} {l : Listing}
    (h : Listing.unpack bs = .ok l) : bs.length = Listing.LEN :=
  (listing_unpack_ok h).1

theorem listing_unpack_ok_init {bs : List Nat} {l : Listing}
    (h : Listing.unpack bs = .ok l) : l.is_initialized = true :=
  (listing_unpack_ok h).2.2

instance {ε α : Type} [DecidableEq ε] [DecidableEq α] : DecidableEq (Except ε α) :=
  fun a b =>
    match a, b with
    | .error e1, .error e2 =>
        if h : e1 = e2 then .isTrue (by rw [h]) else
          .isFalse (by intro hc; injection hc; contradiction)
    | .error _, .ok _ => .isFalse (by intro hc; exact Except.noConfusion hc)
    | .ok _, .error _ => .isFalse (by intro hc; exact Except.noConfusion hc)
    | .ok a1, .ok a2 =>
        if h : a1 = a2 then .isTrue (by rw [h]) else
          .isFalse (by intro hc; injection hc; contradiction)

/-! ## Claim C3: fee arithmetic -/

/-- C3: for every `u64` price and every `fee_percentage ≤ 1000`,
`calculate_fee` returns exactly `⌊price * fee_percentage / 10000⌋` (the
arbitrary-precision value) and never an error; the fee is at most the
price; and `calculate_seller_proceeds` plus the fee equals the price. -/
theorem c3_fee_arithmetic (m : Marketplace) (price : Nat)
    (hp : price < 2 ^ 64) (hf : m.fee_percentage ≤ 1000) :
    m.calculate_fee price = .ok (price * m.fee_percentage / 10000) ∧
    price * m.fee_percentage / 10000 ≤ price ∧
    m.calculate_seller_proceeds price =
      .ok (price - price * m.fee_percentage / 10000) ∧
    (price - price * m.fee_percentage / 10000) +
      price * m.fee_percentage / 10000 = price := by
  have h1 : price * m.fee_percentage ≤ price * 1000 :=
    Nat.mul_le_mul (le_refl price) hf
  have h3 : price * 1000 ≤ (2 ^ 64 - 1) * 1000 :=
    Nat.mul_le_mul (by omega) (le_refl 1000)
  have hmul : price * m.fee_percentage < 2 ^ 128 := by
    have : ((2 : Nat) ^ 64 - 1) * 1000 < 2 ^ 128 := by norm_num
    omega
  have hfle : price * m.fee_percentage / 10000 ≤ price :=
    calc price * m.fee_percentage / 10000
        ≤ price * 10000 / 10000 :=
          Nat.div_le_div_right (Nat.mul_le_mul (le_refl price) (by omega))
      _ = price := Nat.mul_div_cancel price (by norm_num)
  have hnot1 : ¬(price * m.fee_percentage / 10000 > 2 ^ 64 - 1) := by omega
  norm_num at hmul hnot1
  have hn1 : ¬(18446744073709551615 < price * m.fee_percentage / 10000) := by
    omega
  have hn2 : ¬(price < price * m.fee_percentage / 10000) := by omega
  refine ⟨?_, hfle, ?_, ?_⟩
  · simp [Marketplace.calculate_fee, checkedMulU128, checkedDivU128, U64MAX,
      hmul, hn1]
  · simp [Marketplace.calculate_seller_proceeds, Marketplace.calculate_fee,
      checkedMulU128, checkedDivU128, checkedSubU64, U64MAX, hmul, hn1, hn2]
  · omega

/-- Witness for C3 at the spec's own scenario: `fee_bp = 250`,
`price = 1_000_000_000` gives fee `25_000_000` and proceeds
`975_000_000`. -/
theorem c3_fee_arithmetic_witness :
    (Marketplace.new 7 250 7).calculate_fee 1000000000 = .ok 25000000 ∧
    (Marketplace.new 7 250 7).calculate_seller_proceeds 1000000000 =
      .ok 975000000 := by
  have h := c3_fee_arithmetic (Marketplace.new 7 250 7) 1000000000
    (by norm_num) (by decide)
  exact ⟨h.1.trans (by decide), h.2.2.1.trans (by decide)⟩

/-! ## Claim C4: instruction decoding errors -/

/-- C4 counterexample: on the unknown discriminant `5`,
`MarketplaceInstruction::unpack` fails with the borsh io error, which is
not `MarketplaceError::InvalidInstruction` (`ProgramError::Custom(0)`). -/
theorem c4_counterexample :
    MarketplaceInstruction.unpack [5] = .error .borshIoError ∧
    (ProgramError.borshIoError ≠
      MarketplaceError.toProgramError .InvalidInstruction) := by
  decide

/-- C4 amended: for every malformed buffer — empty, unknown discriminant,
or payload of the wrong length for the named variant — `unpack` fails
with the borsh deserialization error (`std::io::Error` of kind
`InvalidData`, surfaced as `ProgramError::BorshIoError`), it never
panics (it is a total function), and no other error identity is ever
produced; `MarketplaceError::InvalidInstruction` is never returned. -/
theorem c4_unpack_malformed (input : List Nat) :
    (∀ e, MarketplaceInstruction.unpack input = .error e → e = .borshIoError) ∧
    (input = [] → MarketplaceInstruction.unpack input = .error .borshIoError) ∧
    (∀ t rest, input = t :: rest →
      (4 < t → MarketplaceInstruction.unpack input = .error .borshIoError) ∧
      ((t = 0 ∨ t = 4) → rest.length < 2 →
        MarketplaceInstruction.unpack input = .error .borshIoError) ∧
      (t = 1 → rest.length < 8 →
        MarketplaceInstruction.unpack input = .error .borshIoError)) := by
  refine ⟨?_, ?_, ?_⟩
  · intro e h
    simp only [MarketplaceInstruction.unpack] at h
    split at h
    · exact absurd h (by simp)
    · injection h with h1
      exact h1.symm
  · intro h
    subst h
    rfl
  · intro t rest h
    subst h
    refine ⟨?_, ?_, ?_⟩
    · intro ht
      obtain ⟨n, rfl⟩ : ∃ n, t = n + 5 := ⟨t - 5, by omega⟩
      rfl
    · intro ht hlen
      have hnone : readLe 2 rest = none := by
        simp only [readLe]
        rw [if_pos (by omega)]
      rcases ht with rfl | rfl <;>
        simp [MarketplaceInstruction.unpack,
          MarketplaceInstruction.readVariant, hnone]
    · intro ht hlen
      subst ht
      have hnone : readLe 8 rest = none := by
        simp only [readLe]
        rw [if_pos (by omega)]
      simp [MarketplaceInstruction.unpack,
        MarketplaceInstruction.readVariant, hnone]

/-- Witness for C4 at the concrete inputs `[7]` (unknown discriminant)
and `[0]` (truncated `InitializeMarketplace` payload). -/
theorem c4_unpack_malformed_witness :
    MarketplaceInstruction.unpack [7] = .error .borshIoError ∧
    MarketplaceInstruction.unpack [0] = .error .borshIoError := by
  constructor
  · exact ((c4_unpack_malformed [7]).2.2 7 [] rfl).1 (by omega)
  · exact ((c4_unpack_malformed [0]).2.2 0 [] rfl).2.1 (Or.inl rfl) (by simp)

/-! ## Claim C8: poller cursor advance -/

/-- C8: in every poller sweep, if the observed head exceeds the stored
cursor, the post-sweep cursor equals the head no matter which per-batch
or per-block units failed; if the head is at most the cursor, the sweep
is a no-op. -/
theorem c8_cursor_advance (env : IndexerEnv) (st : IndexerState) :
    (st.last_processed_slot < env.current_slot →
      (process_transactions env st).last_processed_slot = env.current_slot) ∧
    (env.current_slot ≤ st.last_processed_slot →
      process_transactions env st = st) := by
  constructor
  · intro h
    simp only [process_transactions]
    rw [if_neg (by omega)]
  · intro h
    simp only [process_transactions]
    rw [if_pos h]

/-- The spec's cursor scenario: cursor 100, head 200, block 150 fails. -/
def pollEnvW : IndexerEnv :=
  { current_slot := 200
    get_blocks_fails := fun _ _ => false
    blocks := fun s e => List.range' s (e + 1 - s)
    block_fails := fun s => s == 150 }

def pollStW : IndexerState := { last_processed_slot := 100, processed_blocks := [] }

/-- Witness for C8 on the spec's scenario: block 150 fails, yet the
post-sweep cursor is 200; and a head at the cursor leaves the state
untouched. -/
theorem c8_cursor_advance_witness :
    pollEnvW.block_fails 150 = true ∧
    (process_transactions pollEnvW pollStW).last_processed_slot = 200 ∧
    process_transactions pollEnvW
      { last_processed_slot := 200, processed_blocks := [] } =
      { last_processed_slot := 200, processed_blocks := [] } := by
  refine ⟨by decide, ?_, ?_⟩
  · exact (c8_cursor_advance pollEnvW pollStW).1 (by decide)
  · exact (c8_cursor_advance pollEnvW
      { last_processed_slot := 200, processed_blocks := [] }).2 (by decide)

/-! ## Claim C9: sink idempotence -/

theorem find?_append_none {α : Type} (p : α → Bool) (l1 l2 : List α)
    (h : l1.find? p = none) : (l1 ++ l2).find? p = l2.find? p := by
  induction l1 with
  | nil => simp
  | cons a t ih =>
      cases hpa : p a with
      | true => simp [List.find?, hpa] at h
      | false =>
          simp only [List.find?, hpa] at h
          simpa [List.find?, hpa] using ih h

/-- C9: delivering the same mint-event to the reconciliation sink twice
yields exactly one stored row for that mint; the second delivery
observes the existing row keyed by mint and returns the store
unchanged. -/
theorem c9_sink_idempotent (env1 env2 : WsEnv) (e : NftMintedEvent)
    (s1 s2 : String) (db db1 : List NftRow)
    (h0 : Nft.find_by_mint db e.mint = none)
    (h1 : handle_nft_minted_event env1 e s1 db = .ok db1) :
    (db1.filter (fun r => r.mint_address = e.mint)).length = 1 ∧
    handle_nft_minted_event env2 e s2 db1 = .ok db1 := by
  have h0f : db.find? (fun r => r.mint_address = e.mint) = none := h0
  simp only [handle_nft_minted_event, Nft.find_by_mint, h0f] at h1
  injection h1 with h1
  subst h1
  have hnone : ∀ r ∈ db, ¬(r.mint_address = e.mint) := by
    intro r hr
    have := List.find?_eq_none.mp h0 r hr
    simpa using this
  constructor
  · rw [List.filter_append]
    have hdbf : db.filter (fun r => r.mint_address = e.mint) = [] := by
      rw [List.filter_eq_nil_iff]
      intro r hr
      simpa using hnone r hr
    rw [hdbf]
    simp
  · have hkey : ∀ (r : NftRow), r.mint_address = e.mint → ∀ (denv : WsEnv)
        (ds : String), handle_nft_minted_event denv e ds (db ++ [r]) =
          .ok (db ++ [r]) := by
      intro r hr denv ds
      have hf : Nft.find_by_mint (db ++ [r]) e.mint = some r := by
        unfold Nft.find_by_mint
        rw [find?_append_none _ _ _ h0]
        simp [List.find?, hr]
      simp [handle_nft_minted_event, hf]
    exact hkey _ rfl env2 s2

def wsEnvA : WsEnv := ⟨fun _ => (none, none, none)⟩

def wsEnvB : WsEnv := ⟨fun _ => (some "img", some "desc", none)⟩

def wsEventW : NftMintedEvent := ⟨"m1", "n", "s", "u", "c"⟩

/-- The store after the first delivery of `wsEventW` into an empty
store. -/
def wsDb1 : List NftRow :=
  (handle_nft_minted_event wsEnvA wsEventW "sigA" []).toOption.getD []

/-- Witness for C9: a concrete event delivered twice into an empty
store. -/
theorem c9_sink_idempotent_witness :
    (wsDb1.filter (fun r => r.mint_address = wsEventW.mint)).length = 1 ∧
    handle_nft_minted_event wsEnvB wsEventW "sigB" wsDb1 = .ok wsDb1 :=
  c9_sink_idempotent wsEnvA wsEnvB wsEventW "sigA" "sigB" [] wsDb1
    (by rfl) (by rfl)

/-! ## Inversion lemmas for the processor functions -/

theorem createAccount_ok {env : Env} {funder target : Pubkey}
    {lam space : Nat} {newOwner : Pubkey} {st st2 : Ledger}
    (h : createAccount env funder target lam space newOwner st = .ok st2) :
    st.lamports target = 0 ∧ st.data target = [] ∧
    st.owner target = env.system_program ∧ lam ≤ st.lamports funder ∧
    st2 = (((st.setLam funder (st.lamports funder - lam)).setLam target
      ((st.setLam funder (st.lamports funder - lam)).lamports target +
        lam)).setData target (List.replicate space 0)).setOwner target
      newOwner := by
  simp only [createAccount] at h
  split at h
  · exact absurd h (by simp)
  · rename_i hc
    push_neg at hc
    split at h
    · exact absurd h (by simp)
    · rename_i hfund
      injection h with h2
      exact ⟨hc.1, hc.2.1, hc.2.2, by omega, h2.symm⟩

theorem cancel_ok_inv {env : Env} {pid : Pubkey} {accounts : List AccountMeta}
    {st st1 : Ledger}
    (h : process_cancel_listing env pid accounts st = .ok st1) :
    ∃ seller_info listing_info nft_mint_info rest l v,
      accounts = seller_info :: listing_info :: nft_mint_info :: rest ∧
      seller_info.is_signer = true ∧
      Listing.unpack (st.data listing_info.key) = .ok l ∧
      l.seller = seller_info.key ∧ l.nft_mint = nft_mint_info.key ∧
      checkedAddU64 ((st.setLam listing_info.key 0).lamports seller_info.key)
        (st.lamports listing_info.key) = some v ∧
      st1 = (st.setLam listing_info.key 0).setLam seller_info.key v := by
  rcases accounts with _ | ⟨s, accounts⟩
  · exact absurd h (by simp [process_cancel_listing])
  rcases accounts with _ | ⟨li, accounts⟩
  · exact absurd h (by simp [process_cancel_listing])
  rcases accounts with _ | ⟨mint, rest⟩
  · exact absurd h (by simp [process_cancel_listing])
  simp only [process_cancel_listing] at h
  split at h
  · exact absurd h (by simp)
  · rename_i hsig
    split at h
    · exact absurd h (by simp)
    · rename_i l hl
      split at h
      · exact absurd h (by simp)
      · rename_i hinit
        split at h
        · exact absurd h (by simp)
        · rename_i hseller
          split at h
          · exact absurd h (by simp)
          · rename_i hmint
            split at h
            · exact absurd h (by simp)
            · rename_i v hv
              injection h with h2
              refine ⟨s, li, mint, rest, l, v, rfl, by simpa using hsig,
                hl, by simpa using hseller, by simpa using hmint, hv, h2.symm⟩

/-! ## Claim C5: CancelListing by a non-seller -/

/-- C5: a CancelListing signed by an address different from the
listing's recorded seller fails with `InvalidSeller`, and the effective
post-state (under the ledger's transactional semantics) is the
unchanged pre-state. -/
theorem c5_cancel_wrong_seller (env : Env) (pid : Pubkey)
    (s li mint : AccountMeta) (rest : List AccountMeta) (st : Ledger)
    (l : Listing) (hs : s.is_signer = true)
    (hl : Listing.unpack (st.data li.key) = .ok l)
    (hne : s.key ≠ l.seller) :
    process_cancel_listing env pid (s :: li :: mint :: rest) st =
      .error (MarketplaceError.toProgramError .InvalidSeller) ∧
    Processor.step env pid (s :: li :: mint :: rest)
      (MarketplaceInstruction.pack .CancelListing) st = st := by
  have hi := listing_unpack_ok_init hl
  have hns : l.seller ≠ s.key := fun hc => hne hc.symm
  have hmain : process_cancel_listing env pid (s :: li :: mint :: rest) st =
      .error (MarketplaceError.toProgramError .InvalidSeller) := by
    simp [process_cancel_listing, hs, hl, hi, hns]
  refine ⟨hmain, ?_⟩
  simp [Processor.step, Processor.process, MarketplaceInstruction.pack,
    MarketplaceInstruction.unpack, MarketplaceInstruction.readVariant, hmain]

/-- An environment for concrete runs; its derivation functions return
the fixed address 999 for every seed. -/
def envC2 : Env :=
  { system_program := 0
    rent_sysvar := 55
    minimum_balance := fun _ => 10
    unix_timestamp := 0
    marketplace_pda := fun _ => 999
    listing_pda := fun _ _ => 999 }

/-- A concrete listing: seller 1, mint 3, price 10, marketplace 4. -/
def lsW : Listing := Listing.new 1 3 10 0 4

/-- A ledger with `lsW` stored at address 2 (1000 lamports). -/
def stCancel : Ledger :=
  { lamports := fun k => if k = 2 then 1000 else if k = 9 then 50 else 0
    owner := fun _ => 0
    data := fun k => if k = 2 then Listing.serialize lsW else [] }

/-- Witness for C5: signer 9 is not the recorded seller 1. -/
theorem c5_cancel_wrong_seller_witness :
    Listing.unpack (stCancel.data 2) = .ok lsW ∧
    process_cancel_listing envC2 77 [⟨9, true⟩, ⟨2, false⟩, ⟨3, false⟩]
      stCancel = .error (MarketplaceError.toProgramError .InvalidSeller) := by
  have h := c5_cancel_wrong_seller envC2 77 ⟨9, true⟩ ⟨2, false⟩ ⟨3, false⟩
    [] stCancel lsW rfl (by decide) (by decide)
  exact ⟨by decide, h.1⟩

/-! ## Claim C2: derived-address checks -/

/-- C2 counterexample: a CancelListing whose listing account (address 2)
differs from the derived listing address (999 in `envC2`) still
succeeds — no `InvalidSeeds` rejection happens on this variant. -/
theorem c2_counterexample :
    envC2.listing_pda 3 1 ≠ 2 ∧
    (Processor.process envC2 77 [⟨1, true⟩, ⟨2, false⟩, ⟨3, false⟩]
      (MarketplaceInstruction.pack .CancelListing) stCancel).isOk = true := by
  decide

/-- C2 amended: only `InitializeMarketplace` and `ListNft` derive the
expected program-derived address and reject a mismatching caller-supplied
account with `InvalidSeeds`; `BuyNft`, `CancelListing` and
`UpdateMarketplaceFee` perform no derivation or comparison at all —
their results do not depend on the program identity or on the
derivation functions. -/
theorem c2_pda_checks :
    (∀ (env : Env) (pid : Pubkey) (a mk s r : AccountMeta)
        (rest : List AccountMeta) (fee : Nat) (st : Ledger),
      fee ≤ 1000 → a.is_signer = true →
      st.owner mk.key = env.system_program → r.key = env.rent_sysvar →
      env.marketplace_pda a.key ≠ mk.key →
      process_initialize_marketplace env pid (a :: mk :: s :: r :: rest) fee
        st = .error .invalidSeeds) ∧
    (∀ (env : Env) (pid : Pubkey) (s li mint stk mkt sys r : AccountMeta)
        (rest : List AccountMeta) (price : Nat) (st : Ledger) (m : Marketplace),
      price ≠ 0 → s.is_signer = true →
      Marketplace.unpack (st.data mkt.key) = .ok m →
      st.owner li.key = env.system_program → r.key = env.rent_sysvar →
      env.listing_pda mint.key s.key ≠ li.key →
      process_list_nft env pid
        (s :: li :: mint :: stk :: mkt :: sys :: r :: rest) price st =
        .error .invalidSeeds) ∧
    (∀ (env env2 : Env) (pid pid2 : Pubkey) (accounts : List AccountMeta)
        (st : Ledger),
      process_buy_nft env pid accounts st = process_buy_nft env2 pid2 accounts st) ∧
    (∀ (env env2 : Env) (pid pid2 : Pubkey) (accounts : List AccountMeta)
        (st : Ledger),
      process_cancel_listing env pid accounts st =
        process_cancel_listing env2 pid2 accounts st) ∧
    (∀ (env env2 : Env) (pid pid2 : Pubkey) (accounts : List AccountMeta)
        (new_fee_percentage : Nat) (st : Ledger),
      process_update_marketplace_fee env pid accounts new_fee_percentage st =
        process_update_marketplace_fee env2 pid2 accounts new_fee_percentage
          st) := by
  refine ⟨?_, ?_, ?_, ?_, ?_⟩
  · intro env pid a mk s r rest fee st hfee hsig hown hrent hpda
    simp [process_initialize_marketplace, hsig, hown, hrent, hpda]
    intro hcon
    exact absurd hcon (by omega)
  · intro env pid s li mint stk mkt sys r rest price st m hprice hsig hm
      hown hrent hpda
    have hi := (marketplace_unpack_ok hm).2.2
    simp [process_list_nft, hprice, hsig, hm, hi, hown, hrent, hpda]
  · intro env env2 pid pid2 accounts st
    rfl
  · intro env env2 pid pid2 accounts st
    rfl
  · intro env env2 pid pid2 accounts newfee st
    rfl

/-- A system-owned ledger whose address 6 holds 100 lamports. -/
def stI : Ledger :=
  { lamports := fun k => if k = 6 then 100 else 0
    owner := fun _ => 0
    data := fun _ => [] }

/-- Witness for C2: an InitializeMarketplace whose marketplace account 42
differs from the derived address 999 fails with `InvalidSeeds`. -/
theorem c2_pda_checks_witness :
    envC2.marketplace_pda 6 ≠ 42 ∧
    process_initialize_marketplace envC2 77
      [⟨6, true⟩, ⟨42, false⟩, ⟨0, false⟩, ⟨55, false⟩] 250 stI =
      .error .invalidSeeds := by
  refine ⟨by decide, ?_⟩
  exact c2_pda_checks.1 envC2 77 ⟨6, true⟩ ⟨42, false⟩ ⟨0, false⟩
    ⟨55, false⟩ [] 250 stI (by norm_num) rfl rfl rfl (by decide)

theorem init_ok_inv {env : Env} {pid : Pubkey} {accounts : List AccountMeta}
    {fee : Nat} {st st1 : Ledger}
    (h : process_initialize_marketplace env pid accounts fee st = .ok st1) :
    ∃ a mk s r rest, accounts = a :: mk :: s :: r :: rest ∧
      fee ≤ 1000 ∧ a.is_signer = true ∧
      st.owner mk.key = env.system_program ∧
      env.marketplace_pda a.key = mk.key ∧
      st.lamports mk.key = 0 ∧ st.data mk.key = [] ∧
      (∀ k, st1.data k = if k = mk.key then
        Marketplace.serialize (Marketplace.new a.key fee a.key) else
        st.data k) := by
  rcases accounts with _ | ⟨a, accounts⟩
  · exact absurd h (by simp [process_initialize_marketplace])
  rcases accounts with _ | ⟨mk, accounts⟩
  · exact absurd h (by simp [process_initialize_marketplace])
  rcases accounts with _ | ⟨s, accounts⟩
  · exact absurd h (by simp [process_initialize_marketplace])
  rcases accounts with _ | ⟨r, rest⟩
  · exact absurd h (by simp [process_initialize_marketplace])
  simp only [process_initialize_marketplace] at h
  split at h
  · exact absurd h (by simp)
  · rename_i hfee
    split at h
    · exact absurd h (by simp)
    · rename_i hsig
      split at h
      · exact absurd h (by simp)
      · rename_i hown
        split at h
        · exact absurd h (by simp)
        · rename_i hrent
          split at h
          · exact absurd h (by simp)
          · rename_i hpda
            split at h
            · exact absurd h (by simp)
            · rename_i st2 hca
              split at h
              · exact absurd h (by simp)
              · rename_i bytes hpk
                injection h with h2
                obtain ⟨hl0, hd0, how0, hfund, hst2⟩ := createAccount_ok hca
                have hdlen : (st2.data mk.key).length = Marketplace.LEN := by
                  rw [hst2]
                  simp [Marketplace.LEN]
                have hbytes : bytes =
                    Marketplace.serialize (Marketplace.new a.key fee a.key) := by
                  simp only [Marketplace.pack] at hpk
                  rw [if_neg (by omega)] at hpk
                  injection hpk with h3
                  exact h3.symm
                refine ⟨a, mk, s, r, rest, rfl, by omega, by simpa using hsig,
                  by simpa using hown, by simpa using hpda, hl0, hd0, ?_⟩
                intro k
                subst h2
                subst hbytes
                simp [hst2]
                by_cases hk : k = mk.key <;> simp [hk]

theorem init_success (env : Env) (pid : Pubkey) (a mk s r : AccountMeta)
    (rest : List AccountMeta) (fee : Nat) (st : Ledger)
    (hfee : fee ≤ 1000) (hsig : a.is_signer = true)
    (hown : st.owner mk.key = env.system_program)
    (hrent : r.key = env.rent_sysvar)
    (hpda : env.marketplace_pda a.key = mk.key)
    (hlam : st.lamports mk.key = 0) (hdat : st.data mk.key = [])
    (hfund : env.minimum_balance Marketplace.LEN ≤ st.lamports a.key) :
    ∃ st1, process_initialize_marketplace env pid (a :: mk :: s :: r :: rest)
        fee st = .ok st1 ∧
      st1.data mk.key = Marketplace.serialize (Marketplace.new a.key fee a.key) := by
  have hnf : ¬(1000 < fee) := by omega
  have hnfund : ¬(st.lamports a.key < env.minimum_balance Marketplace.LEN) := by
    omega
  simp [process_initialize_marketplace, createAccount, Marketplace.pack,
    hnf, hsig, hown, hrent, hpda, hlam, hdat, Marketplace.LEN]
  rw [if_neg (by simpa [Marketplace.LEN] using hnfund)]
  simp

/-! ## Claim C7: InitializeMarketplace fee gate -/

/-- C7: `InitializeMarketplace` with a fee above 1000 basis points is
rejected with `InvalidFeePercentage` and the effective state is
unchanged (nothing is written); with fee 1000 and a valid signer,
system-owned zero target account at the derived address, and a funded
authority, it succeeds and stores `Marketplace::new(authority, 1000,
authority)`, whose `total_volume` and `total_sales` are both 0. -/
theorem c7_init_fee_gate :
    (∀ (env : Env) (pid : Pubkey) (a mk s r : AccountMeta)
        (rest : List AccountMeta) (fee : Nat) (st : Ledger),
      1000 < fee →
      process_initialize_marketplace env pid (a :: mk :: s :: r :: rest) fee
        st = .error (MarketplaceError.toProgramError .InvalidFeePercentage) ∧
      (fee < 2 ^ 16 →
        Processor.step env pid (a :: mk :: s :: r :: rest)
          (MarketplaceInstruction.pack (.InitializeMarketplace fee)) st = st)) ∧
    (∀ (env : Env) (pid : Pubkey) (a mk s r : AccountMeta)
        (rest : List AccountMeta) (st : Ledger),
      a.is_signer = true → st.owner mk.key = env.system_program →
      r.key = env.rent_sysvar → env.marketplace_pda a.key = mk.key →
      st.lamports mk.key = 0 → st.data mk.key = [] →
      env.minimum_balance Marketplace.LEN ≤ st.lamports a.key →
      a.key < 2 ^ 256 →
      ∃ st1, process_initialize_marketplace env pid
          (a :: mk :: s :: r :: rest) 1000 st = .ok st1 ∧
        Marketplace.unpack (st1.data mk.key) =
          .ok (Marketplace.new a.key 1000 a.key) ∧
        (Marketplace.new a.key 1000 a.key).total_volume = 0 ∧
        (Marketplace.new a.key 1000 a.key).total_sales = 0) := by
  constructor
  · intro env pid a mk s r rest fee st hgt
    have hmain : process_initialize_marketplace env pid
        (a :: mk :: s :: r :: rest) fee st =
        .error (MarketplaceError.toProgramError .InvalidFeePercentage) := by
      simp [process_initialize_marketplace, hgt]
    refine ⟨hmain, ?_⟩
    intro hlt
    simp [Processor.step, Processor.process, MarketplaceInstruction.pack,
      MarketplaceInstruction.unpack, MarketplaceInstruction.readVariant,
      readLe_natToLe_nil,
      (show fee % 65536 = fee from Nat.mod_eq_of_lt (by omega)), hmain]
  · intro env pid a mk s r rest st hsig hown hrent hpda hlam hdat hfund hak
    obtain ⟨st1, hok, hdata⟩ := init_success env pid a mk s r rest 1000 st
      (le_refl 1000) hsig hown hrent hpda hlam hdat hfund
    refine ⟨st1, hok, ?_, rfl, rfl⟩
    rw [hdata]
    exact Marketplace.unpack_serialize _
      ⟨hak, by norm_num [Marketplace.new], hak,
        by norm_num [Marketplace.new], by norm_num [Marketplace.new]⟩ rfl

/-- Witness for C7: fee 1001 is rejected and the state survives; fee
1000 succeeds (the success side is exercised through the same concrete
ledger in the witness of C10). -/
theorem c7_init_fee_gate_witness :
    process_initialize_marketplace envC2 77
      [⟨6, true⟩, ⟨42, false⟩, ⟨0, false⟩, ⟨55, false⟩] 1001 stI =
      .error (MarketplaceError.toProgramError .InvalidFeePercentage) ∧
    Processor.step envC2 77 [⟨6, true⟩, ⟨42, false⟩, ⟨0, false⟩, ⟨55, false⟩]
      (MarketplaceInstruction.pack (.InitializeMarketplace 1001)) stI = stI := by
  have h := c7_init_fee_gate.1 envC2 77 ⟨6, true⟩ ⟨42, false⟩ ⟨0, false⟩
    ⟨55, false⟩ [] 1001 stI (by norm_num)
  exact ⟨h.1, h.2 (by norm_num)⟩

/-! ## Claim C10: the initializer is the initial fee recipient -/

/-- C10: after every successful `InitializeMarketplace`, the stored
marketplace record is exactly `Marketplace::new(authority, fee,
authority)` — its `fee_recipient` equals the authority's address (the
instruction has no parameter for choosing another recipient). -/
theorem c10_fee_recipient (env : Env) (pid : Pubkey) (a mk s r : AccountMeta)
    (rest : List AccountMeta) (fee : Nat) (st st1 : Ledger)
    (h : process_initialize_marketplace env pid (a :: mk :: s :: r :: rest)
      fee st = .ok st1)
    (hak : a.key < 2 ^ 256) :
    Marketplace.unpack (st1.data mk.key) =
      .ok (Marketplace.new a.key fee a.key) ∧
    (Marketplace.new a.key fee a.key).fee_recipient = a.key := by
  obtain ⟨a2, mk2, s2, r2, rest2, heq, hfee, _, _, _, _, _, hchar⟩ :=
    init_ok_inv h
  injection heq with e1 heq
  injection heq with e2 heq
  injection heq with e3 heq
  injection heq with e4 e5
  subst e1; subst e2; subst e3; subst e4; subst e5
  have hd := hchar mk.key
  rw [if_pos rfl] at hd
  rw [hd]
  refine ⟨?_, rfl⟩
  exact Marketplace.unpack_serialize _
    ⟨hak, by simp only [Marketplace.new]; omega, hak,
      by norm_num [Marketplace.new], by norm_num [Marketplace.new]⟩ rfl

/-- The ledger after a successful concrete InitializeMarketplace (fee
250, authority 6, marketplace account at the derived address 999). -/
def stI1 : Ledger :=
  Processor.step envC2 77 [⟨6, true⟩, ⟨999, false⟩, ⟨0, false⟩, ⟨55, false⟩]
    (MarketplaceInstruction.pack (.InitializeMarketplace 250)) stI

/-- Witness for C10 on that concrete run. -/
theorem c10_fee_recipient_witness :
    Marketplace.unpack (stI1.data 999) = .ok (Marketplace.new 6 250 6) ∧
    (Marketplace.new 6 250 6).fee_recipient = 6 :=
  c10_fee_recipient envC2 77 ⟨6, true⟩ ⟨999, false⟩ ⟨0, false⟩ ⟨55, false⟩
    [] 250 stI stI1 (by rfl) (by norm_num)

theorem update_ok_inv {env : Env} {pid : Pubkey} {accounts : List AccountMeta}
    {newfee : Nat} {st st1 : Ledger}
    (h : process_update_marketplace_fee env pid accounts newfee st = .ok st1) :
    ∃ a mkt rest m, accounts = a :: mkt :: rest ∧ newfee ≤ 1000 ∧
      Marketplace.unpack (st.data mkt.key) = .ok m ∧
      (∀ k, st1.data k = if k = mkt.key then
        Marketplace.serialize { m with fee_percentage := newfee } else
        st.data k) := by
  rcases accounts with _ | ⟨a, accounts⟩
  · exact absurd h (by simp [process_update_marketplace_fee])
  rcases accounts with _ | ⟨mkt, rest⟩
  · exact absurd h (by simp [process_update_marketplace_fee])
  simp only [process_update_marketplace_fee] at h
  split at h
  · exact absurd h (by simp)
  · rename_i hfee
    split at h
    · exact absurd h (by simp)
    · rename_i hsig
      split at h
      · exact absurd h (by simp)
      · rename_i m hm
        split at h
        · exact absurd h (by simp)
        · rename_i hinit
          split at h
          · exact absurd h (by simp)
          · rename_i hauth
            split at h
            · exact absurd h (by simp)
            · rename_i bytes hpk
              injection h with h2
              have hlen := (marketplace_unpack_ok hm).1
              have hbytes : bytes =
                  Marketplace.serialize { m with fee_percentage := newfee } := by
                simp only [Marketplace.pack] at hpk
                rw [if_neg (by omega)] at hpk
                injection hpk with h3
                exact h3.symm
              refine ⟨a, mkt, rest, m, rfl, by omega, hm, ?_⟩
              intro k
              subst h2
              subst hbytes
              by_cases hk : k = mkt.key <;> simp [hk]

theorem list_ok_data {env : Env} {pid : Pubkey} {accounts : List AccountMeta}
    {price : Nat} {st st1 : Ledger}
    (h : process_list_nft env pid accounts price st = .ok st1) :
    ∃ target : Pubkey, st.data target = [] ∧
      ∀ k, k ≠ target → st1.data k = st.data k := by
  rcases accounts with _ | ⟨s, accounts⟩
  · exact absurd h (by simp [process_list_nft])
  rcases accounts with _ | ⟨li, accounts⟩
  · exact absurd h (by simp [process_list_nft])
  rcases accounts with _ | ⟨mint, accounts⟩
  · exact absurd h (by simp [process_list_nft])
  rcases accounts with _ | ⟨stk, accounts⟩
  · exact absurd h (by simp [process_list_nft])
  rcases accounts with _ | ⟨mkt, accounts⟩
  · exact absurd h (by simp [process_list_nft])
  rcases accounts with _ | ⟨sys, accounts⟩
  · exact absurd h (by simp [process_list_nft])
  rcases accounts with _ | ⟨r, rest⟩
  · exact absurd h (by simp [process_list_nft])
  simp only [process_list_nft] at h
  split at h
  · exact absurd h (by simp)
  · rename_i hprice
    split at h
    · exact absurd h (by simp)
    · rename_i hsig
      split at h
      · exact absurd h (by simp)
      · rename_i m hm
        split at h
        · exact absurd h (by simp)
        · rename_i hinit
          split at h
          · exact absurd h (by simp)
          · rename_i hown
            split at h
            · exact absurd h (by simp)
            · rename_i hrent
              split at h
              · exact absurd h (by simp)
              · rename_i hpda
                split at h
                · exact absurd h (by simp)
                · rename_i st2 hca
                  split at h
                  · exact absurd h (by simp)
                  · rename_i bytes hpk
                    injection h with h2
                    obtain ⟨hl0, hd0, how0, hfund, hst2⟩ := createAccount_ok hca
                    refine ⟨li.key, hd0, ?_⟩
                    intro k hk
                    subst h2
                    simp [hst2, hk]

theorem checkedAddU64_some {a b c : Nat} (h : checkedAddU64 a b = some c) :
    c = a + b ∧ a + b < 2 ^ 64 := by
  simp only [checkedAddU64] at h
  split at h
  · rename_i hlt
    injection h with h1
    exact ⟨h1.symm, hlt⟩
  · exact absurd h (by simp)

theorem buy_ok_inv {env : Env} {pid : Pubkey}
    {buyer li bt stk seller feeacct mint mkt tok sys : AccountMeta}
    {rest : List AccountMeta} {st st1 : Ledger}
    (h : process_buy_nft env pid (buyer :: li :: bt :: stk :: seller ::
      feeacct :: mint :: mkt :: tok :: sys :: rest) st = .ok st1) :
    ∃ l m fee proceeds stA stB,
      Listing.unpack (st.data li.key) = .ok l ∧
      Marketplace.unpack (st.data mkt.key) = .ok m ∧
      m.calculate_fee l.price = .ok fee ∧
      m.calculate_seller_proceeds l.price = .ok proceeds ∧
      systemTransfer buyer.key seller.key proceeds st = .ok stA ∧
      ((0 < fee ∧ systemTransfer buyer.key feeacct.key fee stA = .ok stB) ∨
        (fee = 0 ∧ stB = stA)) ∧
      m.total_volume + l.price < 2 ^ 64 ∧ m.total_sales + 1 < 2 ^ 64 ∧
      (∀ k, st1.data k = if k = mkt.key then
        Marketplace.serialize { m with
          total_volume := m.total_volume + l.price,
          total_sales := m.total_sales + 1 } else st.data k) ∧
      (∀ x, x ≠ li.key → x ≠ seller.key → st1.lamports x = stB.lamports x) := by
  simp only [process_buy_nft] at h
  split at h
  · exact absurd h (by simp)
  rename_i hsig
  split at h
  · exact absurd h (by simp)
  rename_i l hl
  split at h
  · exact absurd h (by simp)
  rename_i hlinit
  split at h
  · exact absurd h (by simp)
  rename_i m hm
  split at h
  · exact absurd h (by simp)
  rename_i hminit
  split at h
  · exact absurd h (by simp)
  rename_i hmint
  split at h
  · exact absurd h (by simp)
  rename_i hseller
  split at h
  · exact absurd h (by simp)
  rename_i fee hfee
  split at h
  · exact absurd h (by simp)
  rename_i proceeds hproc
  split at h
  · exact absurd h (by simp)
  rename_i hfunds
  split at h
  · exact absurd h (by simp)
  rename_i stA hA
  split at h
  · exact absurd h (by simp)
  rename_i stB hB
  split at h
  · exact absurd h (by simp)
  rename_i nv hnv
  split at h
  · exact absurd h (by simp)
  rename_i ns hns
  split at h
  · exact absurd h (by simp)
  rename_i bytes hpk
  split at h
  · exact absurd h (by simp)
  rename_i v hv
  injection h with h2
  obtain ⟨hnv1, hnv2⟩ := checkedAddU64_some hnv
  obtain ⟨hns1, hns2⟩ := checkedAddU64_some hns
  have hBcase : (0 < fee ∧ systemTransfer buyer.key feeacct.key fee stA =
      .ok stB) ∨ (fee = 0 ∧ stB = stA) := by
    by_cases hf : 0 < fee
    · rw [if_pos hf] at hB
      exact Or.inl ⟨hf, hB⟩
    · rw [if_neg hf] at hB
      injection hB with hB2
      exact Or.inr ⟨by omega, hB2.symm⟩
  have hdA := systemTransfer_ok_data hA
  have hBdata : ∀ x, stB.data x = st.data x := by
    rcases hBcase with ⟨hf, hB2⟩ | ⟨hf0, hBA⟩
    · exact fun x => (systemTransfer_ok_data hB2 x).trans (hdA x)
    · rw [hBA]
      exact hdA
  have hbytes : bytes = Marketplace.serialize { m with
      total_volume := nv, total_sales := ns } := by
    simp only [Marketplace.pack] at hpk
    split at hpk
    · exact absurd hpk (by simp)
    · injection hpk with h3
      exact h3.symm
  refine ⟨l, m, fee, proceeds, stA, stB, hl, hm, hfee, hproc, hA, hBcase,
    by omega, by omega, ?_, ?_⟩
  · intro k
    subst h2
    subst hbytes
    subst hnv1
    subst hns1
    by_cases hk : k = mkt.key <;> simp [hk, hBdata]
  · intro x hxli hxs
    subst h2
    simp [hxli, hxs]

/-! ## Claim C1: fee destination on BuyNft -/

/-- The marketplace record after a successful BuyNft: the stored record
at the supplied marketplace account is the old one with `total_volume`
increased by the listing price and `total_sales` increased by one. -/
theorem buy_market_after {env : Env} {pid : Pubkey}
    {buyer li bt stk seller feeacct mint mkt tok sys : AccountMeta}
    {rest : List AccountMeta} {st st1 : Ledger} {l : Listing}
    {m : Marketplace}
    (h : process_buy_nft env pid (buyer :: li :: bt :: stk :: seller ::
      feeacct :: mint :: mkt :: tok :: sys :: rest) st = .ok st1)
    (hl : Listing.unpack (st.data li.key) = .ok l)
    (hm : Marketplace.unpack (st.data mkt.key) = .ok m) :
    Marketplace.unpack (st1.data mkt.key) = .ok { m with
      total_volume := m.total_volume + l.price,
      total_sales := m.total_sales + 1 } := by
  obtain ⟨l2, m2, fee, proceeds, stA, stB, hl2, hm2, _, _, _, _, hv2, hs2,
    hdata, _⟩ := buy_ok_inv h
  have el : l2 = l := Except.ok.inj (hl2.symm.trans hl)
  have em : m2 = m := Except.ok.inj (hm2.symm.trans hm)
  subst el
  subst em
  have hd := hdata mkt.key
  rw [if_pos rfl] at hd
  rw [hd]
  obtain ⟨va, vf, vr, vv, vs⟩ := marketplace_unpack_ok_valid hm
  exact Marketplace.unpack_serialize _ ⟨va, vf, vr, hv2, hs2⟩
    ((marketplace_unpack_ok hm).2.2)

/-- C1 amended: on every successful BuyNft with a positive computed fee,
the fee amount is credited to the caller-supplied marketplace-fee
account (account index 5); the processor never compares that account
with the stored `marketplace.fee_recipient`, so this holds whether or
not the two coincide. -/
theorem c1_fee_destination (env : Env) (pid : Pubkey)
    (buyer li bt stk seller feeacct mint mkt tok sys : AccountMeta)
    (rest : List AccountMeta) (st st1 : Ledger) (l : Listing)
    (m : Marketplace) (fee : Nat)
    (h : process_buy_nft env pid (buyer :: li :: bt :: stk :: seller ::
      feeacct :: mint :: mkt :: tok :: sys :: rest) st = .ok st1)
    (hl : Listing.unpack (st.data li.key) = .ok l)
    (hm : Marketplace.unpack (st.data mkt.key) = .ok m)
    (hfee : m.calculate_fee l.price = .ok fee) (hpos : 0 < fee)
    (hfb : feeacct.key ≠ buyer.key) (hfs : feeacct.key ≠ seller.key)
    (hfl : feeacct.key ≠ li.key) :
    st1.lamports feeacct.key = st.lamports feeacct.key + fee := by
  obtain ⟨l2, m2, fee2, proceeds, stA, stB, hl2, hm2, hfee2, _, hA, hBcase,
    _, _, _, hlam⟩ := buy_ok_inv h
  have el : l2 = l := Except.ok.inj (hl2.symm.trans hl)
  have em : m2 = m := Except.ok.inj (hm2.symm.trans hm)
  subst el
  subst em
  have ef : fee2 = fee := Except.ok.inj (hfee2.symm.trans hfee)
  subst ef
  rcases hBcase with ⟨hf, hB⟩ | ⟨hf0, _⟩
  · rw [hlam _ hfl hfs, systemTransfer_ok_lamports_dest hB hfb,
      systemTransfer_ok_lamports_other hA _ hfb hfs]
  · omega

/-- The marketplace record of the concrete buy scenario: fee recipient
is address 5, fee 250 basis points. -/
def mktW : Marketplace := ⟨true, 6, 250, 5, 0, 0⟩

/-- The concrete listing being bought: seller 1, mint 3, price 10000. -/
def listW : Listing := Listing.new 1 3 10000 0 4

/-- Pre-state of the concrete buy: buyer 10 holds 100000 lamports, the
listing account 2 holds 1000, the marketplace record sits at 4. -/
def stBuy : Ledger :=
  { lamports := fun k => if k = 10 then 100000 else if k = 2 then 1000 else 0
    owner := fun _ => 0
    data := fun k => if k = 2 then Listing.serialize listW
      else if k = 4 then Marketplace.serialize mktW else [] }

/-- The BuyNft account list of the concrete scenario; the supplied
marketplace-fee account is address 7, not the recorded recipient 5. -/
def buyAccs : List AccountMeta :=
  [⟨10, true⟩, ⟨2, false⟩, ⟨11, false⟩, ⟨12, false⟩, ⟨1, false⟩,
    ⟨7, false⟩, ⟨3, false⟩, ⟨4, false⟩, ⟨13, false⟩, ⟨0, false⟩]

/-- Post-state of the concrete buy. -/
def stBuy1 : Ledger :=
  Processor.step envC2 77 buyAccs (MarketplaceInstruction.pack .BuyNft) stBuy

/-- C1 counterexample: the BuyNft succeeds although the supplied fee
account 7 differs from the recorded `fee_recipient` 5; the 250-lamport
fee lands on account 7 while account 5 receives nothing. -/
theorem c1_counterexample :
    mktW.fee_recipient = 5 ∧ (7 : Pubkey) ≠ 5 ∧
    (Processor.process envC2 77 buyAccs (MarketplaceInstruction.pack .BuyNft)
      stBuy).isOk = true ∧
    stBuy.lamports 7 = 0 ∧ stBuy1.lamports 7 = 250 ∧
    stBuy.lamports 5 = 0 ∧ stBuy1.lamports 5 = 0 := by
  decide

/-- Witness for C1: the amended theorem applied to the concrete buy. -/
theorem c1_fee_destination_witness :
    (0 : Nat) < 250 ∧ stBuy1.lamports 7 = stBuy.lamports 7 + 250 := by
  have h := c1_fee_destination envC2 77 ⟨10, true⟩ ⟨2, false⟩ ⟨11, false⟩
    ⟨12, false⟩ ⟨1, false⟩ ⟨7, false⟩ ⟨3, false⟩ ⟨4, false⟩ ⟨13, false⟩
    ⟨0, false⟩ [] stBuy stBuy1 listW mktW 250 (by rfl) (by rfl) (by rfl)
    (by rfl) (by norm_num) (by norm_num) (by norm_num) (by norm_num)
  exact ⟨by norm_num, h⟩

/-! ## Claim C6: total_volume / total_sales monotonicity -/

/-- C6: for every instruction (any input bytes, any accounts) applied to
a ledger holding an initialized Marketplace record at address `k`, the
record stored at `k` after the effective step has `total_volume` and
`total_sales` at least their old values (errors roll back, and no
instruction decreases either counter); and a successful BuyNft
increases `total_volume` by exactly the listing price and `total_sales`
by exactly one. -/
theorem c6_totals_monotone :
    (∀ (env : Env) (pid : Pubkey) (accounts : List AccountMeta)
        (input : List Nat) (st : Ledger) (k : Pubkey) (m m2 : Marketplace),
      Marketplace.unpack (st.data k) = .ok m →
      Marketplace.unpack ((Processor.step env pid accounts input st).data k) =
        .ok m2 →
      m.total_volume ≤ m2.total_volume ∧ m.total_sales ≤ m2.total_sales) ∧
    (∀ (env : Env) (pid : Pubkey)
        (buyer li bt stk seller feeacct mint mkt tok sys : AccountMeta)
        (rest : List AccountMeta) (st st1 : Ledger) (l : Listing)
        (m : Marketplace),
      process_buy_nft env pid (buyer :: li :: bt :: stk :: seller ::
        feeacct :: mint :: mkt :: tok :: sys :: rest) st = .ok st1 →
      Listing.unpack (st.data li.key) = .ok l →
      Marketplace.unpack (st.data mkt.key) = .ok m →
      Marketplace.unpack (st1.data mkt.key) = .ok { m with
        total_volume := m.total_volume + l.price,
        total_sales := m.total_sales + 1 }) := by
  constructor
  · intro env pid accounts input st k m m2 hm h2
    cases hp : Processor.process env pid accounts input st with
    | error e =>
        simp only [Processor.step, hp] at h2
        have := Except.ok.inj (hm.symm.trans h2)
        subst this
        exact ⟨le_refl _, le_refl _⟩
    | ok stx =>
        simp only [Processor.step, hp] at h2
        simp only [Processor.process] at hp
        split at hp
        · exact absurd hp (by simp)
        · rename_i i hpi
          have hlen83 : (st.data k).length = Marketplace.LEN :=
            (marketplace_unpack_ok hm).1
          split at hp
          · -- InitializeMarketplace
            obtain ⟨a, mk, s, r, rest, heq, _, _, _, _, _, hd0, hchar⟩ :=
              init_ok_inv hp
            have hk : k ≠ mk.key := by
              intro hk2
              rw [hk2, hd0] at hlen83
              simp [Marketplace.LEN] at hlen83
            have hd := hchar k
            rw [if_neg hk] at hd
            rw [hd] at h2
            have := Except.ok.inj (hm.symm.trans h2)
            subst this
            exact ⟨le_refl _, le_refl _⟩
          · -- ListNft
            obtain ⟨target, hd0, hpres⟩ := list_ok_data hp
            have hk : k ≠ target := by
              intro hk2
              rw [hk2, hd0] at hlen83
              simp [Marketplace.LEN] at hlen83
            rw [hpres k hk] at h2
            have := Except.ok.inj (hm.symm.trans h2)
            subst this
            exact ⟨le_refl _, le_refl _⟩
          · -- BuyNft
            rcases accounts with _ | ⟨buyer, accounts⟩
            · exact absurd hp (by simp [process_buy_nft])
            rcases accounts with _ | ⟨li, accounts⟩
            · exact absurd hp (by simp [process_buy_nft])
            rcases accounts with _ | ⟨bt, accounts⟩
            · exact absurd hp (by simp [process_buy_nft])
            rcases accounts with _ | ⟨stk, accounts⟩
            · exact absurd hp (by simp [process_buy_nft])
            rcases accounts with _ | ⟨seller, accounts⟩
            · exact absurd hp (by simp [process_buy_nft])
            rcases accounts with _ | ⟨feeacct, accounts⟩
            · exact absurd hp (by simp [process_buy_nft])
            rcases accounts with _ | ⟨mint, accounts⟩
            · exact absurd hp (by simp [process_buy_nft])
            rcases accounts with _ | ⟨mkt, accounts⟩
            · exact absurd hp (by simp [process_buy_nft])
            rcases accounts with _ | ⟨tok, accounts⟩
            · exact absurd hp (by simp [process_buy_nft])
            rcases accounts with _ | ⟨sys, rest⟩
            · exact absurd hp (by simp [process_buy_nft])
            obtain ⟨l, m3, fee, proceeds, stA, stB, hl3, hm3, _, _, _, _,
              hv2, hs2, hdata, _⟩ := buy_ok_inv hp
            by_cases hk : k = mkt.key
            · rw [hk] at hm
              have em : m3 = m := Except.ok.inj (hm3.symm.trans hm)
              subst em
              have hd := hdata k
              rw [if_pos hk] at hd
              rw [hd] at h2
              obtain ⟨va, vf, vr, vv, vs⟩ := marketplace_unpack_ok_valid hm
              have hru := Marketplace.unpack_serialize
                { m3 with
                  total_volume := m3.total_volume + l.price,
                  total_sales := m3.total_sales + 1 }
                ⟨va, vf, vr, hv2, hs2⟩ ((marketplace_unpack_ok hm).2.2)
              have := Except.ok.inj (hru.symm.trans h2)
              subst this
              exact ⟨Nat.le_add_right _ _, Nat.le_add_right _ _⟩
            · have hd := hdata k
              rw [if_neg hk] at hd
              rw [hd] at h2
              have := Except.ok.inj (hm.symm.trans h2)
              subst this
              exact ⟨le_refl _, le_refl _⟩
          · -- CancelListing
            obtain ⟨s, li, mint, rest, l, v, heq, _, _, _, _, _, hst1⟩ :=
              cancel_ok_inv hp
            have hd : stx.data k = st.data k := by
              rw [hst1]
              simp
            rw [hd] at h2
            have := Except.ok.inj (hm.symm.trans h2)
            subst this
            exact ⟨le_refl _, le_refl _⟩
          · -- UpdateMarketplaceFee
            rename_i newfee
            obtain ⟨a, mkt, rest, m3, heq, hfee, hm3, hchar⟩ :=
              update_ok_inv hp
            by_cases hk : k = mkt.key
            · rw [hk] at hm
              have em : m3 = m := Except.ok.inj (hm3.symm.trans hm)
              subst em
              have hd := hchar k
              rw [if_pos hk] at hd
              rw [hd] at h2
              obtain ⟨va, vf, vr, vv, vs⟩ := marketplace_unpack_ok_valid hm
              have hru := Marketplace.unpack_serialize
                { m3 with fee_percentage := newfee }
                ⟨va, show newfee < 2 ^ 16 by omega, vr, vv, vs⟩
                ((marketplace_unpack_ok hm).2.2)
              have := Except.ok.inj (hru.symm.trans h2)
              subst this
              exact ⟨le_refl _, le_refl _⟩
            · have hd := hchar k
              rw [if_neg hk] at hd
              rw [hd] at h2
              have := Except.ok.inj (hm.symm.trans h2)
              subst this
              exact ⟨le_refl _, le_refl _⟩
  · intro env pid buyer li bt stk seller feeacct mint mkt tok sys rest st
      st1 l m h hl hm
    exact buy_market_after h hl hm

/-- Witness for C6 on the concrete buy: volume grows by the price 10000
and sales by one. -/
theorem c6_totals_monotone_witness :
    Marketplace.unpack (stBuy1.data 4) = .ok { mktW with
      total_volume := mktW.total_volume + listW.price,
      total_sales := mktW.total_sales + 1 } :=
  c6_totals_monotone.2 envC2 77 ⟨10, true⟩ ⟨2, false⟩ ⟨11, false⟩
    ⟨12, false⟩ ⟨1, false⟩ ⟨7, false⟩ ⟨3, false⟩ ⟨4, false⟩ ⟨13, false⟩
    ⟨0, false⟩ [] stBuy stBuy1 listW mktW (by rfl) (by rfl) (by rfl)
